import Mathlib

/-!
Shallow embedding of the paprika router (package `router`: `router.go`,
`page.go`) and verification of its navigation-stack specification.

Modelling conventions:
* A concrete page instance is identified by a natural number (`Pg`); a Go
  `Page` interface value, which may be `nil`, is an `Option Pg` (`none` = nil).
* The lifecycle callbacks `Mount`/`Unmount`/`Update`/`Draw` are external
  collaborators; a dispatch to one of them is recorded as a `Call` event.
  The four dispatch helpers of `page.go` return the (possibly empty) list of
  events they emit.
* `Router.pageHistory` is the history slice, oldest first; `Router.history`
  is the retention bound (`uint` in Go, `Nat` here).  The Go context chain
  built by `context.WithValue` is the association list `ctxBindings`
  (most recent first) over the externally supplied lookup `ctxBase`.
* Go runtime panics are modelled as `none` of an `Option` result.  `Push`
  can panic: with `history = 0` and an empty `pageHistory`, the eviction
  `r.pageHistory = r.pageHistory[1:]` slices an empty slice out of range.
* A page's `Update` may mutate the router (push/pop); `runStep` therefore
  takes the per-page update behaviour `upd : Pg → Router → Router` as a
  parameter, exactly as one iteration of `Run` invokes it.
-/

namespace Paprika

/-- Identity of a concrete page instance. -/
abbrev Pg := Nat

/-- A lifecycle dispatch event: which `Page` method was invoked, on which page. -/
inductive Call where
  | mount (p : Pg)
  | unmount (p : Pg)
  | update (p : Pg)
  | draw (p : Pg)
deriving DecidableEq

/-- The `Router` struct of `router.go`: retention bound, history slice,
default page, and the context (value chain over an external base). -/
structure Router where
  history : Nat
  pageHistory : List (Option Pg)
  defaultPage : Option Pg
  ctxBindings : List (String × Nat)
  ctxBase : String → Option Nat

/-- `DefaultHistory uint = 10`. -/
def DefaultHistory : Nat := 10

/-- `NewRouter` before options are applied: background context, no default
page, history bound 10. -/
def NewRouter : Router :=
  { history := DefaultHistory, pageHistory := [], defaultPage := none,
    ctxBindings := [], ctxBase := fun _ => none }

/-- The `WithHistory` option. -/
def WithHistory (recordedHistory : Nat) (r : Router) : Router :=
  { r with history := recordedHistory }

/-- The `WithDefaultPage` option. -/
def WithDefaultPage (page : Option Pg) (r : Router) : Router :=
  { r with defaultPage := page }

/-- The `WithContext` option: replaces the router context with an externally
supplied one (its bindings are abstracted by the lookup `base`). -/
def WithContext (base : String → Option Nat) (r : Router) : Router :=
  { r with ctxBindings := [], ctxBase := base }

/-- `NewRouter(WithHistory(limit), WithDefaultPage(dflt))`. -/
def mkRouter (limit : Nat) (dflt : Option Pg) : Router :=
  WithDefaultPage dflt (WithHistory limit NewRouter)

/-- `mountPage` of `page.go`: no-op on nil, otherwise dispatches `Mount`. -/
def mountPage : Option Pg → List Call
  | none => []
  | some page => [Call.mount page]

/-- `unmountPage` of `page.go`: no-op on nil, otherwise dispatches `Unmount`. -/
def unmountPage : Option Pg → List Call
  | none => []
  | some page => [Call.unmount page]

/-- `updatePage` of `page.go`: no-op on nil, otherwise dispatches `Update`. -/
def updatePage : Option Pg → List Call
  | none => []
  | some page => [Call.update page]

/-- `drawPage` of `page.go`: no-op on nil, otherwise dispatches `Draw`. -/
def drawPage : Option Pg → List Call
  | none => []
  | some page => [Call.draw page]

/-- `current()`: nil when the history is empty, otherwise the last entry
(which may itself be a nil page, hence the `join`). -/
def current (r : Router) : Option Pg :=
  r.pageHistory.getLast?.join

/-- The eviction step of `Push`: when `len(pageHistory) >= int(history)` the
oldest entry is dropped via `pageHistory[1:]`; on an empty slice that Go
slice expression panics (`none`). -/
def evictIfFull (r : Router) : Option Router :=
  if r.history ≤ r.pageHistory.length then
    match r.pageHistory with
    | [] => none
    | _p0 :: rest => some { r with pageHistory := rest }
  else
    some r

/-- `Push`: evict if full, unmount the (new) last entry if the history is
non-empty, then append the page and mount it.  Returns the updated router
and the lifecycle events fired, or `none` on the eviction panic. -/
def push (r : Router) (page : Option Pg) : Option (Router × List Call) :=
  match evictIfFull r with
  | none => none
  | some r1 =>
    some ({ r1 with pageHistory := r1.pageHistory ++ [page] },
      unmountPage r1.pageHistory.getLast?.join ++ mountPage page)

/-- `Pop`: nil on empty history; otherwise unmount the last entry, remove it,
and — only if some entry remains, which is then mounted — return the removed
page; when the removal empties the history the code returns nil. -/
def pop (r : Router) : Router × List Call × Option Pg :=
  match r.pageHistory.getLast? with
  | none => (r, [], none)
  | some lastPage =>
    let rest := r.pageHistory.dropLast
    match rest.getLast? with
    | none => ({ r with pageHistory := rest }, unmountPage lastPage, none)
    | some prev =>
      ({ r with pageHistory := rest }, unmountPage lastPage ++ mountPage prev,
        lastPage)

/-- `CtxSetValue`: wraps the context with one more key/value binding. -/
def CtxSetValue (r : Router) (key : String) (value : Nat) : Router :=
  { r with ctxBindings := (key, value) :: r.ctxBindings }

/-- `CtxValue`: innermost binding for the key, else the external context. -/
def CtxValue (r : Router) (key : String) : Option Nat :=
  match r.ctxBindings.find? (fun kv => kv.fst == key) with
  | some kv => some kv.snd
  | none => r.ctxBase key

/-- One non-cancelled iteration of `Run`: resolve the current page, fall back
to the default page (pushing it) when the resolution is nil, skip when there
is no default either; otherwise update then draw the resolved page.  The
second component is the page drawn this iteration (`none` when skipped);
`none` overall propagates a `Push` panic. -/
def runStep (upd : Pg → Router → Router) (r : Router) :
    Option (Router × Option Pg × List Call) :=
  match current r with
  | some p => some (upd p r, some p, updatePage (some p) ++ drawPage (some p))
  | none =>
    match r.defaultPage with
    | none => some (r, none, [])
    | some d =>
      match push r (some d) with
      | none => none
      | some (r1, evs) =>
        some (upd d r1, some d, evs ++ updatePage (some d) ++ drawPage (some d))

/-- An externally requested history operation. -/
inductive Op where
  | push (page : Option Pg)
  | pop

/-- Execute one operation, collecting its lifecycle events. -/
def stepOp (r : Router) : Op → Option (Router × List Call)
  | Op.push page => push r page
  | Op.pop => some ((pop r).fst, (pop r).snd.fst)

/-- Execute a sequence of operations from a given router state, collecting
all lifecycle events in order; `none` if any operation panics. -/
def runOpsFrom (r : Router) : List Op → Option (Router × List Call)
  | [] => some (r, [])
  | o :: os =>
    match stepOp r o with
    | none => none
    | some (r1, evs1) =>
      match runOpsFrom r1 os with
      | none => none
      | some (r2, evs2) => some (r2, evs1 ++ evs2)

/-- Number of occurrences of one dispatch event in an event trace. -/
def countCall (c : Call) : List Call → Nat
  | [] => 0
  | d :: rest => (if d = c then 1 else 0) + countCall c rest

/-- Mount/unmount bookkeeping is balanced: every page's mounts exceed its
unmounts by one exactly when it is the currently active page, and by zero
otherwise. -/
def Balanced (r : Router) (evs : List Call) : Prop :=
  ∀ p : Pg, countCall (Call.mount p) evs =
    countCall (Call.unmount p) evs + (if current r = some p then 1 else 0)

/-- The page an iteration of `Run` resolves at its start: the current page,
or failing that the configured default page. -/
def startResolution (r : Router) : Option Pg :=
  match current r with
  | some p => some p
  | none => r.defaultPage

/-- Fold a sequence of `Push` calls, `none` if any of them panics. -/
def pushSeqFrom (r : Router) : List (Option Pg) → Option Router
  | [] => some r
  | page :: rest =>
    match push r page with
    | none => none
    | some (r1, _) => pushSeqFrom r1 rest

/-- Apply a sequence of `CtxSetValue` calls in order. -/
def setSeq (r : Router) : List (String × Nat) → Router
  | [] => r
  | kv :: rest => setSeq (CtxSetValue r kv.fst kv.snd) rest

/-- The value of the most recent write for a key in a sequence of
`CtxSetValue` calls (applied left to right), if any. -/
def lastSet : List (String × Nat) → String → Option Nat
  | [], _ => none
  | kv :: rest, key =>
    match lastSet rest key with
    | some v => some v
    | none => if kv.fst == key then some kv.snd else none

/-- A page behaviour whose `Update` pushes a nil page exactly when the
history holds one entry (used to exercise `Run` over a nil top entry). -/
def updNilOnce (_p : Pg) (r : Router) : Router :=
  if r.pageHistory.length = 1 then
    match push r none with
    | none => r
    | some (r1, _) => r1
  else r

theorem countCall_append (c : Call) (l1 l2 : List Call) :
    countCall c (l1 ++ l2) = countCall c l1 + countCall c l2 := by
  induction l1 with
  | nil => simp [countCall]
  | cons d rest ih => simp [countCall, ih]; omega

theorem countCall_mount_unmountPage (p : Pg) (q : Option Pg) :
    countCall (Call.mount p) (unmountPage q) = 0 := by
  cases q <;> simp [countCall, unmountPage]

theorem countCall_unmount_mountPage (p : Pg) (q : Option Pg) :
    countCall (Call.unmount p) (mountPage q) = 0 := by
  cases q <;> simp [countCall, mountPage]

theorem countCall_unmount_unmountPage (p : Pg) (q : Option Pg) :
    countCall (Call.unmount p) (unmountPage q) =
      if q = some p then 1 else 0 := by
  cases q with
  | none => simp [countCall, unmountPage]
  | some a =>
    by_cases h : a = p <;> simp [countCall, unmountPage, h]

theorem countCall_mount_mountPage (p : Pg) (q : Option Pg) :
    countCall (Call.mount p) (mountPage q) =
      if q = some p then 1 else 0 := by
  cases q with
  | none => simp [countCall, mountPage]
  | some a =>
    by_cases h : a = p <;> simp [countCall, mountPage, h]

theorem current_append_last (r : Router) (l : List (Option Pg)) (q : Option Pg) :
    current { r with pageHistory := l ++ [q] } = q := by
  simp [current, List.getLast?_concat]

theorem evictIfFull_spec (r : Router) (h2 : 2 ≤ r.history) :
    ∃ r1, evictIfFull r = some r1 ∧ current r1 = current r ∧
      r1.history = r.history ∧ r1.defaultPage = r.defaultPage := by
  unfold evictIfFull
  by_cases h : r.history ≤ r.pageHistory.length
  · rw [if_pos h]
    have hlen : 2 ≤ r.pageHistory.length := h2.trans h
    cases hm : r.pageHistory with
    | nil => rw [hm] at hlen; simp at hlen
    | cons p0 rest =>
      cases rest with
      | nil => rw [hm] at hlen; simp at hlen
      | cons p1 rest2 =>
        refine ⟨_, rfl, ?_, rfl, rfl⟩
        simp [current, hm]
  · rw [if_neg h]
    exact ⟨r, rfl, rfl, rfl, rfl⟩

theorem push_spec (r : Router) (q : Option Pg) (h2 : 2 ≤ r.history) :
    ∃ r', push r q = some (r', unmountPage (current r) ++ mountPage q) ∧
      current r' = q ∧ r'.history = r.history ∧
      r'.defaultPage = r.defaultPage := by
  obtain ⟨r1, he, hc, hh, hd⟩ := evictIfFull_spec r h2
  refine ⟨{ r1 with pageHistory := r1.pageHistory ++ [q] }, ?_, ?_, hh, hd⟩
  · have hc2 : r1.pageHistory.getLast?.join = current r := hc
    simp [push, he]
    rw [show (r1.pageHistory.getLast?.bind fun a => a) =
          r1.pageHistory.getLast?.join from rfl, hc2]
  · exact current_append_last ..

theorem push_current (r r1 : Router) (q : Option Pg) (evs : List Call)
    (h : push r q = some (r1, evs)) : current r1 = q := by
  unfold push at h
  cases he : evictIfFull r with
  | none => rw [he] at h; cases h
  | some r0 =>
    rw [he] at h
    simp only [Option.some.injEq, Prod.mk.injEq] at h
    rw [← h.1]
    exact current_append_last ..

/-- Claim C1 (code bug): popping the single remaining page unmounts it and
removes it, but the code returns nil — not the removed page as the claim,
the spec, and `Pop`'s own doc comment require. -/
theorem pop_last_page_returns_nil :
    pop { history := 10, pageHistory := [some 1], defaultPage := none,
          ctxBindings := [], ctxBase := fun _ => none } =
      ({ history := 10, pageHistory := [], defaultPage := none,
         ctxBindings := [], ctxBase := fun _ => none },
       [Call.unmount 1], none) := rfl

/-- Claim C5 (code bug): with `history_limit = 0`, the very first `Push` on
the empty history panics (Go slices `pageHistory[1:]` on an empty slice)
instead of completing as a legal mount-only operation. -/
theorem push_limit_zero_empty_faults :
    push (mkRouter 0 none) (some 0) = none := rfl

/-- Claim C6: each of the four lifecycle dispatch functions, given a nil page
reference, performs no `Page` method call and returns without fault. -/
theorem nil_dispatch_noop :
    mountPage none = [] ∧ unmountPage none = [] ∧
    updatePage none = [] ∧ drawPage none = [] :=
  ⟨rfl, rfl, rfl, rfl⟩

theorem push_bound (r : Router) (q : Option Pg)
    (h1 : 1 ≤ r.history) (hlen : r.pageHistory.length ≤ r.history) :
    ∃ r' evs, push r q = some (r', evs) ∧
      r'.pageHistory.length ≤ r'.history ∧ r'.history = r.history := by
  unfold push evictIfFull
  by_cases h : r.history ≤ r.pageHistory.length
  · rw [if_pos h]
    cases hm : r.pageHistory with
    | nil => rw [hm] at h; simp at h; omega
    | cons p0 rest =>
      refine ⟨_, _, rfl, ?_, rfl⟩
      have hr : rest.length + 1 ≤ r.history := by
        rw [hm] at hlen; simpa using hlen
      simpa using hr
  · rw [if_neg h]
    refine ⟨_, _, rfl, ?_, rfl⟩
    simp only [List.length_append, List.length_cons, List.length_nil]
    omega

/-- Claim C2 (amended): for every history limit at least 1, from any state
already within the bound, every `Push` in any sequence completes and
`len(pageHistory) ≤ history_limit` holds after each one.  (At limit 0 no
`Push` completes: see the counterexample and claim C5.) -/
theorem pushSeq_bound (r : Router) (ps : List (Option Pg))
    (h1 : 1 ≤ r.history) (hlen : r.pageHistory.length ≤ r.history) :
    ∃ r', pushSeqFrom r ps = some r' ∧
      r'.pageHistory.length ≤ r'.history ∧ r'.history = r.history := by
  induction ps generalizing r with
  | nil => exact ⟨r, rfl, hlen, rfl⟩
  | cons q rest ih =>
    obtain ⟨r1, evs, hp, hb, hh⟩ := push_bound r q h1 hlen
    obtain ⟨r2, hrun, hb2, hh2⟩ := ih r1 (by rw [hh]; exact h1) hb
    exact ⟨r2, by simp [pushSeqFrom, hp, hrun], hb2, hh2.trans hh⟩

/-- Witness for claim C2's amended theorem: pushing three pages through a
fresh router with limit 1 succeeds and respects the bound. -/
theorem pushSeq_bound_witness :
    ∃ r', pushSeqFrom (mkRouter 1 none) [some 0, some 1, some 2] = some r' ∧
      r'.pageHistory.length ≤ r'.history ∧
      r'.history = (mkRouter 1 none).history :=
  pushSeq_bound (mkRouter 1 none) [some 0, some 1, some 2]
    (by decide) (by decide)

/-- Counterexample for claim C2 as stated: with limit 0 the very first `Push`
of any sequence faults (the eviction slices an empty slice) instead of
evicting-then-inserting with the bound maintained. -/
theorem pushSeq_limit_zero_faults :
    pushSeqFrom (mkRouter 0 none) [some 0] = none := rfl

/-- Claim C3 (amended): for every history limit at least 2 and every router
whose active (last) entry is a page `a`, `Push(b)` fires `Unmount(a)` strictly
before `Mount(b)`.  (At limit 1 the single retained entry is evicted silently
and receives no `Unmount`: see the counterexample.) -/
theorem push_unmounts_before_mount (r : Router) (a b : Pg)
    (h2 : 2 ≤ r.history) (hlast : current r = some a) :
    ∃ r', push r (some b) = some (r', [Call.unmount a, Call.mount b]) := by
  obtain ⟨r', hp, _, _, _⟩ := push_spec r (some b) h2
  exact ⟨r', by simpa [hlast, unmountPage, mountPage] using hp⟩

/-- Witness for claim C3's amended theorem: limit 2, history `[7]`,
pushing 8 unmounts 7 and then mounts 8. -/
theorem push_unmounts_before_mount_witness :
    ∃ r', push { history := 2, pageHistory := [some 7], defaultPage := none,
                 ctxBindings := [], ctxBase := fun _ => none } (some 8) =
      some (r', [Call.unmount 7, Call.mount 8]) :=
  push_unmounts_before_mount
    { history := 2, pageHistory := [some 7], defaultPage := none,
      ctxBindings := [], ctxBase := fun _ => none } 7 8 (by decide) rfl

/-- Counterexample for claim C3 as stated: at limit 1 with non-empty history
`[0]`, `Push(1)` fires only `Mount(1)`; the superseded active page 0 receives
no `Unmount` at all (it was evicted silently). -/
theorem push_limit_one_skips_unmount :
    (push { history := 1, pageHistory := [some 0], defaultPage := none,
            ctxBindings := [], ctxBase := fun _ => none } (some 1)).map
        Prod.snd = some [Call.mount 1] ∧
    (push { history := 1, pageHistory := [some 0], defaultPage := none,
            ctxBindings := [], ctxBase := fun _ => none } (some 1)).map
        (fun x => countCall (Call.unmount 0) x.snd) = some 0 :=
  ⟨rfl, rfl⟩

theorem pop_history (r : Router) : (pop r).fst.history = r.history := by
  cases hl : r.pageHistory.getLast? with
  | none => simp [pop, hl]
  | some lastPage =>
    cases hr : r.pageHistory.dropLast.getLast? with
    | none => simp [pop, hl, hr]
    | some prev => simp [pop, hl, hr]

theorem push_balanced (r : Router) (q : Option Pg) (evs : List Call)
    (h2 : 2 ≤ r.history) (hb : Balanced r evs) :
    ∃ r' evs', push r q = some (r', evs') ∧ Balanced r' (evs ++ evs') ∧
      r'.history = r.history := by
  obtain ⟨r', hp, hcur, hh, _⟩ := push_spec r q h2
  refine ⟨r', _, hp, ?_, hh⟩
  intro p
  have hbp := hb p
  simp only [countCall_append, countCall_mount_unmountPage,
    countCall_unmount_mountPage, countCall_unmount_unmountPage,
    countCall_mount_mountPage, hcur]
  by_cases h1 : current r = some p <;> by_cases hq : q = some p <;>
    simp [h1, hq] at hbp ⊢ <;> omega

theorem pop_balanced (r : Router) (evs : List Call) (hb : Balanced r evs) :
    Balanced (pop r).fst (evs ++ (pop r).snd.fst) := by
  cases hl : r.pageHistory.getLast? with
  | none =>
    simp only [pop, hl]
    simpa using hb
  | some lastPage =>
    have hcur : current r = lastPage := by simp [current, hl]
    cases hr : r.pageHistory.dropLast.getLast? with
    | none =>
      simp only [pop, hl, hr]
      intro p
      have hbp := hb p
      rw [hcur] at hbp
      have hc1 : current { r with pageHistory := r.pageHistory.dropLast } =
          none := by simp [current, hr]
      simp only [countCall_append, countCall_mount_unmountPage,
        countCall_unmount_unmountPage, hc1]
      by_cases h : lastPage = some p <;> simp [h] at hbp ⊢ <;> omega
    | some prev =>
      simp only [pop, hl, hr]
      intro p
      have hbp := hb p
      rw [hcur] at hbp
      have hc1 : current { r with pageHistory := r.pageHistory.dropLast } =
          prev := by simp [current, hr]
      simp only [countCall_append, countCall_mount_unmountPage,
        countCall_unmount_unmountPage, countCall_unmount_mountPage,
        countCall_mount_mountPage, hc1]
      by_cases h : lastPage = some p <;> by_cases h2 : prev = some p <;>
        simp [h, h2] at hbp ⊢ <;> omega

theorem runOpsFrom_balanced (ops : List Op) :
    ∀ (r : Router) (evs : List Call), 2 ≤ r.history → Balanced r evs →
    ∃ r2 evs2, runOpsFrom r ops = some (r2, evs2) ∧
      Balanced r2 (evs ++ evs2) ∧ r2.history = r.history := by
  induction ops with
  | nil =>
    intro r evs _ hb
    exact ⟨r, [], rfl, by simpa using hb, rfl⟩
  | cons o os ih =>
    intro r evs h2 hb
    cases o with
    | push q =>
      obtain ⟨r1, evs1, hp, hb1, hh1⟩ := push_balanced r q evs h2 hb
      obtain ⟨r2, evs2, hrun, hb2, hh2⟩ :=
        ih r1 (evs ++ evs1) (by rw [hh1]; exact h2) hb1
      refine ⟨r2, evs1 ++ evs2, ?_, ?_, hh2.trans hh1⟩
      · simp [runOpsFrom, stepOp, hp, hrun]
      · simpa [List.append_assoc] using hb2
    | pop =>
      have hb1 := pop_balanced r evs hb
      have hh1 := pop_history r
      obtain ⟨r2, evs2, hrun, hb2, hh2⟩ :=
        ih (pop r).fst (evs ++ (pop r).snd.fst) (by rw [hh1]; exact h2) hb1
      refine ⟨r2, (pop r).snd.fst ++ evs2, ?_, ?_, hh2.trans hh1⟩
      · simp [runOpsFrom, stepOp, hrun]
      · simpa [List.append_assoc] using hb2

theorem balanced_mkRouter (limit : Nat) (dflt : Option Pg) :
    Balanced (mkRouter limit dflt) [] := by
  intro p
  simp [countCall, current, mkRouter, WithDefaultPage, WithHistory, NewRouter]

/-- Claim C4 (amended): for every history limit at least 2, after any
sequence of `Push`/`Pop` operations from a fresh router, every page has been
mounted at most once more than it has been unmounted, and the pages that are
mounted-and-not-yet-unmounted are exactly the currently active one — so at
most one page is ever in that state.  (At limit 1 eviction removes the active
entry without unmounting it and two pages can be left mounted: see the
counterexample.  At limit 0 `Push` faults: see claim C5.) -/
theorem lifecycle_at_most_one_mounted (limit : Nat) (dflt : Option Pg)
    (ops : List Op) (h2 : 2 ≤ limit) :
    ∃ r evs, runOpsFrom (mkRouter limit dflt) ops = some (r, evs) ∧
      (∀ p : Pg, countCall (Call.mount p) evs ≤
        countCall (Call.unmount p) evs + 1) ∧
      (∀ p : Pg, countCall (Call.unmount p) evs <
        countCall (Call.mount p) evs ↔ current r = some p) := by
  obtain ⟨r, evs, hrun, hb, _⟩ :=
    runOpsFrom_balanced ops (mkRouter limit dflt) [] h2
      (balanced_mkRouter limit dflt)
  rw [List.nil_append] at hb
  refine ⟨r, evs, hrun, ?_, ?_⟩
  · intro p
    have hbp := hb p
    by_cases h : current r = some p <;> simp [h] at hbp <;> omega
  · intro p
    have hbp := hb p
    by_cases h : current r = some p <;> simp [h] at hbp ⊢ <;> omega

/-- Witness for claim C4's amended theorem: limit 2, pushing pages 0 and 1
then popping once. -/
theorem lifecycle_at_most_one_mounted_witness :
    ∃ r evs, runOpsFrom (mkRouter 2 none)
        [Op.push (some 0), Op.push (some 1), Op.pop] = some (r, evs) ∧
      (∀ p : Pg, countCall (Call.mount p) evs ≤
        countCall (Call.unmount p) evs + 1) ∧
      (∀ p : Pg, countCall (Call.unmount p) evs <
        countCall (Call.mount p) evs ↔ current r = some p) :=
  lifecycle_at_most_one_mounted 2 none
    [Op.push (some 0), Op.push (some 1), Op.pop] (by decide)

/-- Counterexample for claim C4 as stated: at limit 1, pushing pages 0 then 1
leaves both pages mounted-and-never-unmounted (events `[Mount 0, Mount 1]`)
while only page 1 is active — two pages, not at most one. -/
theorem lifecycle_two_mounted_at_limit_one :
    (runOpsFrom (mkRouter 1 none) [Op.push (some 0), Op.push (some 1)]).map
        (fun x => (x.snd, current x.fst)) =
      some ([Call.mount 0, Call.mount 1], some 1) ∧
    countCall (Call.unmount 0) [Call.mount 0, Call.mount 1] <
      countCall (Call.mount 0) [Call.mount 0, Call.mount 1] ∧
    countCall (Call.unmount 1) [Call.mount 0, Call.mount 1] <
      countCall (Call.mount 1) [Call.mount 0, Call.mount 1] ∧
    (0 : Pg) ≠ 1 :=
  ⟨rfl, by decide, by decide, by decide⟩

/-- Claim C7: whatever the active page's `Update` does to the router —
including `Push`/`Pop` — the iteration draws the page that was resolved as
current at the start of that iteration; the mutated router is only handed to
the next iteration. -/
theorem runStep_draws_start_page (upd : Pg → Router → Router) (r r' : Router)
    (drawn : Option Pg) (evs : List Call)
    (h : runStep upd r = some (r', drawn, evs)) :
    drawn = startResolution r := by
  cases hc : current r with
  | some p =>
    have h2 : runStep upd r = some (upd p r, some p,
        updatePage (some p) ++ drawPage (some p)) := by simp [runStep, hc]
    rw [h2] at h
    simp only [Option.some.injEq, Prod.mk.injEq] at h
    simp [startResolution, hc]
    exact h.2.1.symm
  | none =>
    cases hd : r.defaultPage with
    | none =>
      have h2 : runStep upd r = some (r, none, []) := by
        simp [runStep, hc, hd]
      rw [h2] at h
      simp only [Option.some.injEq, Prod.mk.injEq] at h
      simp [startResolution, hc, hd]
      exact h.2.1.symm
    | some d =>
      cases hp : push r (some d) with
      | none =>
        have h2 : runStep upd r = none := by simp [runStep, hc, hd, hp]
        rw [h2] at h
        cases h
      | some pr =>
        obtain ⟨r1, evs1⟩ := pr
        have h2 : runStep upd r = some (upd d r1, some d,
            evs1 ++ updatePage (some d) ++ drawPage (some d)) := by
          simp [runStep, hc, hd, hp]
        rw [h2] at h
        simp only [Option.some.injEq, Prod.mk.injEq] at h
        simp [startResolution, hc, hd]
        exact h.2.1.symm

/-- Witness for claim C7: a two-page history whose active page pops itself
during `Update`; the iteration still draws page 2, the start resolution. -/
theorem runStep_draws_start_page_witness :
    (some 2 : Option Pg) = startResolution
      { history := 10, pageHistory := [some 1, some 2], defaultPage := none,
        ctxBindings := [], ctxBase := fun _ => none } :=
  runStep_draws_start_page (fun _ r => (pop r).fst)
    { history := 10, pageHistory := [some 1, some 2], defaultPage := none,
      ctxBindings := [], ctxBase := fun _ => none }
    { history := 10, pageHistory := [some 1], defaultPage := none,
      ctxBindings := [], ctxBase := fun _ => none }
    (some 2) [Call.update 2, Call.draw 2] rfl

theorem runStep_default_branch (upd : Pg → Router → Router) (s : Router)
    (d : Pg) (r2 : Router) (evs : List Call) (hc : current s = none)
    (hd : s.defaultPage = some d) (hp : push s (some d) = some (r2, evs)) :
    runStep upd s = some (upd d r2, some d,
      evs ++ updatePage (some d) ++ drawPage (some d)) := by
  simp [runStep, hc, hd, hp]

/-- Claim C8 (amended): an iteration of `Run` pushes (and mounts) the default
page exactly when the start-of-iteration resolution of the current page is
nil and a default is configured; when the resolution is a page, nothing is
pushed before the page update, and right after a default push the default is
the resolution — so the default is not pushed again while the resolution
stays non-nil.  (As stated over history emptiness the claim fails: a
non-empty history whose top entry is nil also resolves to nil and triggers
another default push — see the counterexample.) -/
theorem runStep_pushes_default_iff_nil_resolution
    (upd : Pg → Router → Router) (r : Router) :
    (∀ p : Pg, current r = some p →
      runStep upd r = some (upd p r, some p,
        updatePage (some p) ++ drawPage (some p))) ∧
    (∀ (d : Pg) (r1 : Router) (evs : List Call), current r = none →
      r.defaultPage = some d → push r (some d) = some (r1, evs) →
      runStep upd r = some (upd d r1, some d,
        evs ++ updatePage (some d) ++ drawPage (some d)) ∧
      current r1 = some d) := by
  constructor
  · intro p hp
    simp [runStep, hp]
  · intro d r1 evs hc hd hp
    exact ⟨by simp [runStep, hc, hd, hp], push_current r r1 (some d) evs hp⟩

/-- Witness for claim C8's amended theorem: a fresh router with default page 3
resolves nil, pushes and mounts the default, and the default then is the
resolution. -/
theorem runStep_pushes_default_iff_nil_resolution_witness :
    runStep (fun _ r => r) (mkRouter 10 (some 3)) =
      some ({ history := 10, pageHistory := [some 3], defaultPage := some 3,
              ctxBindings := [], ctxBase := fun _ => none }, some 3,
        [Call.mount 3] ++ updatePage (some 3) ++ drawPage (some 3)) ∧
    current { history := 10, pageHistory := [some 3], defaultPage := some 3,
              ctxBindings := [], ctxBase := fun _ => none } = some 3 :=
  (runStep_pushes_default_iff_nil_resolution (fun _ r => r)
      (mkRouter 10 (some 3))).2 3
    { history := 10, pageHistory := [some 3], defaultPage := some 3,
      ctxBindings := [], ctxBase := fun _ => none }
    [Call.mount 3] rfl rfl rfl

/-- Counterexample for claim C8 as stated: the first iteration (empty
history) pushes the default page 0; the default's `Update` pushes a nil page,
so the history `[0, nil]` stays non-empty — yet the next iteration pushes and
mounts the default again (a second `Mount 0`, history `[0, nil, 0]`). -/
theorem runStep_repushes_default_over_nil_top :
    runStep updNilOnce (mkRouter 10 (some 0)) =
      some ({ history := 10, pageHistory := [some 0, none],
              defaultPage := some 0, ctxBindings := [],
              ctxBase := fun _ => none }, some 0,
        [Call.mount 0, Call.update 0, Call.draw 0]) ∧
    ({ history := 10, pageHistory := [some 0, none], defaultPage := some 0,
       ctxBindings := [], ctxBase := fun _ => none } : Router).pageHistory ≠
      [] ∧
    (runStep updNilOnce
        { history := 10, pageHistory := [some 0, none], defaultPage := some 0,
          ctxBindings := [], ctxBase := fun _ => none }).map
        (fun x => (x.fst.pageHistory, x.snd.snd)) =
      some ([some 0, none, some 0],
        [Call.mount 0, Call.update 0, Call.draw 0]) :=
  ⟨rfl, by simp, rfl⟩

theorem ctxValue_set_cons (r : Router) (k key : String) (v : Nat) :
    CtxValue (CtxSetValue r k v) key =
      if k == key then some v else CtxValue r key := by
  by_cases h : k == key <;> simp [CtxValue, CtxSetValue, List.find?, h]

theorem setSeq_ctxValue (sets : List (String × Nat)) :
    ∀ (r : Router) (key : String),
      CtxValue (setSeq r sets) key =
        match lastSet sets key with
        | some v => some v
        | none => CtxValue r key := by
  induction sets with
  | nil => intro r key; rfl
  | cons kv rest ih =>
    intro r key
    show CtxValue (setSeq (CtxSetValue r kv.fst kv.snd) rest) key = _
    rw [ih]
    cases hl : lastSet rest key with
    | some w => simp [lastSet, hl]
    | none =>
      rw [ctxValue_set_cons]
      by_cases h : kv.fst == key <;> simp [lastSet, hl, h]

/-- Claim C9: after any sequence of `CtxSetValue` calls, `CtxValue key` is
the value of the most recent write for that key (last write wins), falling
back to the prior context for unwritten keys; on a fresh router (background
context) an unwritten, unbound key yields the absence value. -/
theorem ctx_last_write_wins :
    (∀ (sets : List (String × Nat)) (r : Router) (key : String),
      CtxValue (setSeq r sets) key =
        match lastSet sets key with
        | some v => some v
        | none => CtxValue r key) ∧
    (∀ (sets : List (String × Nat)) (limit : Nat) (dflt : Option Pg)
        (key : String), lastSet sets key = none →
      CtxValue (setSeq (mkRouter limit dflt) sets) key = none) := by
  refine ⟨fun sets r key => setSeq_ctxValue sets r key, ?_⟩
  intro sets limit dflt key h
  rw [setSeq_ctxValue, h]
  rfl

/-- Witness for claim C9: one write under key alpha, lookup of unwritten key
beta on a fresh router yields the absence value. -/
theorem ctx_last_write_wins_witness :
    CtxValue (setSeq (mkRouter 10 none) [("alpha", 5)]) "beta" = none :=
  ctx_last_write_wins.2 [("alpha", 5)] 10 (none) "beta" (by decide)

/-- Claim C10: with room under the history limit (here: room for two
entries), `Push(nil)` succeeds, appends nil (consuming a slot), dispatches no
`Mount`, and leaves `current()` nil exactly as for an empty history; an
ensuing `Run` iteration therefore pushes the configured default page on top
of the nil entry. -/
theorem push_nil_semantics (r : Router) (d : Pg) (upd : Pg → Router → Router)
    (hroom : r.pageHistory.length + 1 < r.history)
    (hd : r.defaultPage = some d) :
    ∃ r1, push r none = some (r1, unmountPage (current r)) ∧
      r1.pageHistory = r.pageHistory ++ [none] ∧
      r1.pageHistory.length = r.pageHistory.length + 1 ∧
      current r1 = none ∧
      (∀ p : Pg, Call.mount p ∉ unmountPage (current r)) ∧
      ∃ r2, push r1 (some d) = some (r2, [Call.mount d]) ∧
        runStep upd r1 = some (upd d r2, some d,
          [Call.mount d] ++ updatePage (some d) ++ drawPage (some d)) ∧
        r2.pageHistory = r.pageHistory ++ [none, some d] := by
  have hnf1 : ¬ r.history ≤ r.pageHistory.length := by omega
  have hp1 : push r none =
      some ({ r with pageHistory := r.pageHistory ++ [none] },
        unmountPage (current r)) := by
    simp [push, evictIfFull, hnf1, mountPage, current]
  have hc1 : current { r with pageHistory := r.pageHistory ++ [none] } =
      none := current_append_last r _ none
  have hnf2 : ¬ r.history ≤ r.pageHistory.length + 1 := by omega
  have hp2 : push { r with pageHistory := r.pageHistory ++ [none] }
        (some d) =
      some ({ r with pageHistory := r.pageHistory ++ [none, some d] },
        [Call.mount d]) := by
    simp [push, evictIfFull, hnf2, mountPage, unmountPage,
      List.getLast?_concat, List.append_assoc]
  have hrs : runStep upd { r with pageHistory := r.pageHistory ++ [none] } =
      some (upd d { r with pageHistory := r.pageHistory ++ [none, some d] },
        some d,
        [Call.mount d] ++ updatePage (some d) ++ drawPage (some d)) :=
    runStep_default_branch upd _ d _ [Call.mount d] hc1 hd hp2
  refine ⟨_, hp1, rfl, by simp, hc1, ?_, _, hp2, hrs, rfl⟩
  intro p
  cases hc : current r <;> simp [unmountPage, hc]

/-- Witness for claim C10: a fresh router with limit 10 and default page 4;
`Push(nil)` then a `Run` iteration pushing the default on top of the nil. -/
theorem push_nil_semantics_witness :
    ∃ r1, push (mkRouter 10 (some 4)) none =
        some (r1, unmountPage (current (mkRouter 10 (some 4)))) ∧
      r1.pageHistory = (mkRouter 10 (some 4)).pageHistory ++ [none] ∧
      r1.pageHistory.length =
        (mkRouter 10 (some 4)).pageHistory.length + 1 ∧
      current r1 = none ∧
      (∀ p : Pg, Call.mount p ∉
        unmountPage (current (mkRouter 10 (some 4)))) ∧
      ∃ r2, push r1 (some 4) = some (r2, [Call.mount 4]) ∧
        runStep (fun _ r => r) r1 = some (r2, some 4,
          [Call.mount 4] ++ updatePage (some 4) ++ drawPage (some 4)) ∧
        r2.pageHistory = (mkRouter 10 (some 4)).pageHistory ++
          [none, some 4] :=
  push_nil_semantics (mkRouter 10 (some 4)) 4 (fun _ r => r)
    (by decide) rfl

end Paprika
